import Mathlib

/-!
Shallow embedding of `src/utils/logisticRegression.ts` (Smog-Level-Detection).

JS numbers are modelled by `ℝ`.  `Math.max(...xs)` / `Math.min(...xs)` return
`-Infinity` / `Infinity` on an empty argument list, so they are modelled as
folds into `WithBot ℝ` / `WithTop ℝ` (with `⊥` / `⊤` standing for the two
infinities).  `Array.prototype.indexOf` returns `-1` when the element is
absent, hence `jsIndexOf : List ℝ → WithBot ℝ → ℤ`.  Out-of-range JS array
reads yield `undefined` (and `NaN` upon arithmetic); they are modelled with
`List.getD _ _ 0` — every place a claim exercises is either in range or the
read value is provably unused (an untrained classifier maps over an empty
model list).  `Math.random()` is unseeded; each occurrence is modelled as an
explicit stream parameter.  Class methods are modelled as functions on an
explicit state record; methods that assign no field return the state they
received.
-/

open scoped Classical

/-- JS `Math.max(...l)`: left fold of binary max starting from `-Infinity`. -/
noncomputable def jsMax (l : List ℝ) : WithBot ℝ :=
  l.foldl (fun (a : WithBot ℝ) (x : ℝ) => max a (x : WithBot ℝ)) ⊥

/-- Real-valued `Math.max(...l)`; used only where the list is nonempty, in
which case it agrees with `jsMax`. -/
noncomputable def jsMaxR (l : List ℝ) : ℝ :=
  (jsMax l).unbot' 0

/-- JS `Math.min(...l)`: left fold of binary min starting from `Infinity`. -/
noncomputable def jsMin (l : List ℝ) : WithTop ℝ :=
  l.foldl (fun (a : WithTop ℝ) (x : ℝ) => min a (x : WithTop ℝ)) ⊤

/-- Real-valued `Math.min(...l)`; used only where the list is nonempty. -/
noncomputable def jsMinR (l : List ℝ) : ℝ :=
  (jsMin l).untop' 0

/-- JS `l.indexOf(t)`: index of the first element strictly equal to `t`,
`-1` when there is none.  The needle has type `WithBot ℝ` because the source
compares against `Math.max(...l)`. -/
noncomputable def jsIndexOf (l : List ℝ) (t : WithBot ℝ) : ℤ :=
  match l with
  | [] => -1
  | x :: xs =>
    if (x : WithBot ℝ) = t then 0
    else
      let r := jsIndexOf xs t
      if r = -1 then -1 else r + 1

/-- Source `sigmoid` from the source: `1 / (1 + Math.exp(-Math.max(-500, Math.min(500, z))))`. -/
noncomputable def sigmoid (z : ℝ) : ℝ :=
  1 / (1 + Real.exp (-(max (-500) (min 500 z))))

/-- Source `x.reduce((sum, xi, j) => sum + xi * weights[j], bias)` — the forward
linear combination used both in training and in `predict`. -/
noncomputable def dotBias (weights : List ℝ) (bias : ℝ) (x : List ℝ) : ℝ :=
  x.enum.foldl (fun sum p => sum + p.2 * weights.getD p.1 0) bias

/-- Source `LogisticRegressionModel` from `types.ts`. -/
structure LRModel where
  weights : List ℝ
  bias : ℝ
  trained : Bool

/-- Source `AirQualityData`, restricted to the fields the core reads (the six
numeric features and the class label `smogLevel.value`, a natural number in
the claims' scope). -/
structure AirRecord where
  pm25 : ℝ
  temperature : ℝ
  humidity : ℝ
  windSpeed : ℝ
  visibility : ℝ
  pressure : ℝ
  smogLevel : ℕ

/-- Source `PredictionInput` from `types.ts`. -/
structure PredictionInput where
  pm25 : ℝ
  temperature : ℝ
  humidity : ℝ
  windSpeed : ℝ
  visibility : ℝ
  pressure : ℝ

/-- Mutable fields of class `MultiClassLogisticRegression`.  The constant
fields `numClasses = 6` and `featureNames` are top-level definitions. -/
structure MCLR where
  models : List LRModel
  featureMins : List ℝ
  featureMaxs : List ℝ

/-- Source `numClasses` field (constant 6). -/
def numClasses : ℕ := 6

/-- Source `featureNames` field (constant). -/
def featureNames : List String :=
  ["PM2.5", "Temperature", "Humidity", "Wind Speed", "Visibility", "Pressure"]

/-- A freshly constructed classifier: `models = []`, empty bounds. -/
def freshMCLR : MCLR := { models := [], featureMins := [], featureMaxs := [] }

/-- Errors a method can throw.  `typeError` stands for the JS `TypeError`
raised by a property access on `undefined`. -/
inductive JsError where
  | typeError
deriving DecidableEq

/-- Result record of `extractFeatures`. -/
structure ExtractRes where
  features : List (List ℝ)
  labels : List ℕ
  mins : List ℝ
  maxs : List ℝ

/-- Source `extractFeatures` from the source.  On an empty input `features[0]` is
`undefined` and `features[0].map(...)` throws a `TypeError`; that is the
`.error` branch. -/
noncomputable def extractFeatures (data : List AirRecord) :
    Except JsError ExtractRes :=
  let features := data.map fun d =>
    [d.pm25, d.temperature, d.humidity, d.windSpeed, d.visibility, d.pressure]
  let labels := data.map fun d => d.smogLevel
  match features with
  | [] => .error .typeError
  | row0 :: _ =>
    let mins := row0.enum.map fun p =>
      jsMinR (features.map fun row => row.getD p.1 0)
    let maxs := row0.enum.map fun p =>
      jsMaxR (features.map fun row => row.getD p.1 0)
    .ok { features := features, labels := labels, mins := mins, maxs := maxs }

/-- Source `normalizeFeatures` from the source: per-entry min-max scaling. -/
noncomputable def normalizeFeatures (data : List (List ℝ)) (mins maxs : List ℝ) :
    List (List ℝ) :=
  data.map fun row =>
    row.enum.map fun p => (p.2 - mins.getD p.1 0) / (maxs.getD p.1 0 - mins.getD p.1 0)

/-- Source `learningRate` (0.01). -/
def learningRate : ℝ := 0.01

/-- Source `lambda` — the L2 coefficient (0.01). -/
def lambdaReg : ℝ := 0.01

/-- Source `epochs` (1000). -/
def epochs : ℕ := 1000

/-- Body of the inner sample loop of `trainBinaryClassifier`: given the
current weights and bias, fold one `(x, y)` sample into the accumulated
`(weightGradients, biasGradient)`.  The per-`j` loop
`weightGradients[j] += error * x[j]` is the map over `List.range numFeatures`.
(The cross-entropy `totalLoss` accumulated by the source drives no control
decision and no output, so it is not modelled.) -/
noncomputable def gradStep (numFeatures : ℕ) (weights : List ℝ) (bias : ℝ)
    (acc : List ℝ × ℝ) (sample : List ℝ × ℝ) : List ℝ × ℝ :=
  let prediction := sigmoid (dotBias weights bias sample.1)
  let error := prediction - sample.2
  ((List.range numFeatures).map fun j => acc.1.getD j 0 + error * sample.1.getD j 0,
   acc.2 + error)

/-- One epoch of the gradient-descent loop of `trainBinaryClassifier`:
accumulate full-batch gradients, then
`weights[j] -= learningRate * (weightGradients[j]/m + lambda*weights[j])` and
`bias -= learningRate * (biasGradient/m)`. -/
noncomputable def epochStep (numFeatures : ℕ) (features : List (List ℝ))
    (ys : List ℝ) (wb : List ℝ × ℝ) : List ℝ × ℝ :=
  let g := (features.zip ys).foldl (gradStep numFeatures wb.1 wb.2)
    (List.replicate numFeatures 0, 0)
  let m : ℝ := features.length
  ((List.range numFeatures).map fun j =>
      wb.1.getD j 0 - learningRate * (g.1.getD j 0 / m + lambdaReg * wb.1.getD j 0),
   wb.2 - learningRate * (g.2 / m))

/-- Source `trainBinaryClassifier`.  The unseeded random initial weights
`(Math.random() - 0.5) * 0.01` are modelled by an explicit stream `rand`;
the epoch loop is `epochs = 1000` iterations of `epochStep`. -/
noncomputable def trainBinaryClassifier (rand : ℕ → ℝ) (features : List (List ℝ))
    (labels : List ℕ) (targetClass : ℕ) : LRModel :=
  let binaryLabels := labels.map fun label => if label = targetClass then (1 : ℝ) else 0
  let numFeatures := (features.getD 0 []).length
  let w0 := (List.range numFeatures).map fun k => (rand k - 0.5) * 0.01
  let wb := (epochStep numFeatures features binaryLabels)^[epochs] (w0, 0)
  { weights := wb.1, bias := wb.2, trained := true }

/-- Source `train`: extract, store the bounds, normalize once, then train one binary
classifier per class 0..5.  `rand c` is the random stream consumed by class
`c`'s weight initialization.  A `TypeError` from `extractFeatures`
propagates. -/
noncomputable def train (_s : MCLR) (rand : ℕ → ℕ → ℝ) (data : List AirRecord) :
    Except JsError MCLR :=
  match extractFeatures data with
  | .error e => .error e
  | .ok r =>
    let normalizedFeatures := normalizeFeatures r.features r.mins r.maxs
    let models := (List.range numClasses).map fun classLabel =>
      trainBinaryClassifier (rand classLabel) normalizedFeatures r.labels classLabel
    .ok { models := models, featureMins := r.mins, featureMaxs := r.maxs }

/-- Result record of `predict`.  `confidence` is `Math.max(...probabilities)`,
which is `-Infinity` (`⊥`) when the probability list is empty. -/
structure PredictOut where
  prediction : ℤ
  probabilities : List ℝ
  confidence : WithBot ℝ

/-- The normalized six-element input vector built inside `predict`, reading
the bounds stored in the classifier state. -/
noncomputable def normalizeInput (mins maxs : List ℝ) (input : PredictionInput) :
    List ℝ :=
  [input.pm25, input.temperature, input.humidity, input.windSpeed,
   input.visibility, input.pressure].enum.map fun p =>
    (p.2 - mins.getD p.1 0) / (maxs.getD p.1 0 - mins.getD p.1 0)

/-- The per-model probability list of `predict`:
`if (!model.trained) return 0; ... return sigmoid(z)`. -/
noncomputable def probs (s : MCLR) (input : PredictionInput) : List ℝ :=
  s.models.map fun model =>
    if model.trained = false then 0
    else sigmoid (dotBias model.weights model.bias
      (normalizeInput s.featureMins s.featureMaxs input))

/-- Source `predict` from the source. -/
noncomputable def predict (s : MCLR) (input : PredictionInput) : PredictOut :=
  let probabilities := probs s input
  { prediction := jsIndexOf probabilities (jsMax probabilities),
    probabilities := probabilities,
    confidence := jsMax probabilities }

/-- Source `predict` as a method call on the object state: its body assigns no
field of `this`, so the state after the call is the state before it. -/
noncomputable def predictCall (s : MCLR) (input : PredictionInput) :
    PredictOut × MCLR :=
  (predict s input, s)

/-- The pre-normalization importance list of `getFeatureImportance`:
`avgWeight = models.reduce((sum, m) => sum + Math.abs(m.weights[i]), 0) / models.length`. -/
noncomputable def importanceRaw (s : MCLR) : List (String × ℝ) :=
  featureNames.enum.map fun p =>
    (p.2, (s.models.foldl (fun sum model => sum + |model.weights.getD p.1 0|) 0) /
      (s.models.length : ℝ))

/-- Source `getFeatureImportance`: divide by the largest average and sort descending
by importance (`.sort((a, b) => b.importance - a.importance)` — any order
consistent with that comparator; modelled by a stable merge sort). -/
noncomputable def getFeatureImportance (s : MCLR) : List (String × ℝ) :=
  let importance := importanceRaw s
  let maxImportance := jsMaxR (importance.map Prod.snd)
  (importance.map fun item => (item.1, item.2 / maxImportance)).mergeSort
    fun a b => decide (b.2 ≤ a.2)

/-- Source `ModelMetrics` from `types.ts`. -/
structure ModelMetrics where
  accuracy : ℝ
  precision : ℝ
  recallScore : ℝ
  f1Score : ℝ
  confusionMatrix : List (List ℕ)
  rocCurve : List (ℝ × ℝ)

/-- The `PredictionInput` built from a test record inside `evaluate`. -/
def toInput (d : AirRecord) : PredictionInput :=
  { pm25 := d.pm25, temperature := d.temperature, humidity := d.humidity,
    windSpeed := d.windSpeed, visibility := d.visibility, pressure := d.pressure }

/-- Source `confusionMatrix[a][p]++` on a row-major list matrix. -/
def bumpCell (m : List (List ℕ)) (a p : ℕ) : List (List ℕ) :=
  m.set a ((m.getD a []).set p ((m.getD a []).getD p 0 + 1))

/-- Source `tp = confusionMatrix[c][c]`. -/
def tpOf (cm : List (List ℕ)) (c : ℕ) : ℕ :=
  (cm.getD c []).getD c 0

/-- Source `fp = confusionMatrix.reduce((sum, row, i) => i !== c ? sum + row[c] : sum, 0)`. -/
def fpOf (cm : List (List ℕ)) (c : ℕ) : ℕ :=
  cm.enum.foldl (fun sum p => if p.1 ≠ c then sum + p.2.getD c 0 else sum) 0

/-- Source `fn = confusionMatrix[c].reduce((sum, val, j) => j !== c ? sum + val : sum, 0)`. -/
def fnOf (cm : List (List ℕ)) (c : ℕ) : ℕ :=
  (cm.getD c []).enum.foldl (fun sum p => if p.1 ≠ c then sum + p.2 else sum) 0

/-- Per-class `(precision, recall, f1)` of `evaluate` (the source's `recall`
is rendered `recallScore`: `recall` is reserved here).  The source computes
`tp/(tp+fp) || 0`: a zero denominator gives `NaN`, and `NaN || 0` is `0`;
a nonzero denominator gives a real quotient `q ≥ 0`, and `q || 0 = q` (when
`q = 0` the `|| 0` returns the same `0`).  The conditional below is that
semantics without a `NaN` value.  Likewise for recall and f1 (whose JS
denominator `precision + recall` is zero exactly when both are zero). -/
noncomputable def classMetrics (cm : List (List ℕ)) (c : ℕ) : ℝ × ℝ × ℝ :=
  let tp := tpOf cm c
  let fp := fpOf cm c
  let fn := fnOf cm c
  let precision : ℝ := if tp + fp = 0 then 0 else (tp : ℝ) / ((tp : ℝ) + (fp : ℝ))
  let recallScore : ℝ := if tp + fn = 0 then 0 else (tp : ℝ) / ((tp : ℝ) + (fn : ℝ))
  let f1 : ℝ :=
    if precision + recallScore = 0 then 0
    else 2 * (precision * recallScore) / (precision + recallScore)
  (precision, recallScore, f1)

/-- The synthetic ROC curve of `evaluate`:
`Array.from({length: 11}, (_, i) => ({fpr: i/10, tpr: Math.min(1, i/10 + 0.1 + Math.random()*0.1)}))`,
with the unseeded `Math.random()` stream as parameter `jitter`. -/
noncomputable def rocCurveOf (jitter : ℕ → ℝ) : List (ℝ × ℝ) :=
  (List.range 11).map fun (i : ℕ) =>
    ((i : ℝ) / 10, min 1 ((i : ℝ) / 10 + 0.1 + jitter i * 0.1))

/-- Source `evaluate` from the source.  `jitter` is the `Math.random()` stream of
the ROC-curve generator. -/
noncomputable def evaluate (s : MCLR) (jitter : ℕ → ℝ) (testData : List AirRecord) :
    ModelMetrics :=
  let predictions := testData.map fun d => (predict s (toInput d)).prediction
  let actual := testData.map fun d => d.smogLevel
  let confusionMatrix := (actual.zip predictions).foldl
    (fun m p => bumpCell m p.1 p.2.toNat)
    (List.replicate numClasses (List.replicate numClasses 0))
  let accuracy : ℝ :=
    ((predictions.zip actual).countP fun p => p.1 == (p.2 : ℤ)) /
      (predictions.length : ℝ)
  let totals := (List.range numClasses).foldl
    (fun acc classIdx =>
      let m := classMetrics confusionMatrix classIdx
      (acc.1 + m.1, acc.2.1 + m.2.1, acc.2.2 + m.2.2))
    ((0 : ℝ), (0 : ℝ), (0 : ℝ))
  { accuracy := accuracy,
    precision := totals.1 / (numClasses : ℝ),
    recallScore := totals.2.1 / (numClasses : ℝ),
    f1Score := totals.2.2 / (numClasses : ℝ),
    confusionMatrix := confusionMatrix,
    rocCurve := rocCurveOf jitter }

/-- Source `evaluate` as a method call: its body assigns no field of `this`. -/
noncomputable def evaluateCall (s : MCLR) (jitter : ℕ → ℝ)
    (testData : List AirRecord) : ModelMetrics × MCLR :=
  (evaluate s jitter testData, s)

/-! ### Helper lemmas about the JS `Math.max` / `indexOf` models -/

lemma jsMax_nil : jsMax [] = ⊥ := rfl

lemma foldl_max_eq (l : List ℝ) :
    ∀ a : WithBot ℝ,
      l.foldl (fun (a : WithBot ℝ) (x : ℝ) => max a (x : WithBot ℝ)) a = max a (jsMax l) := by
  induction l with
  | nil => intro a; simp [jsMax]
  | cons x xs ih =>
    intro a
    have hbot : max (⊥ : WithBot ℝ) (x : WithBot ℝ) = (x : WithBot ℝ) :=
      max_eq_right bot_le
    simp only [jsMax, List.foldl_cons]
    rw [ih (max a (x : WithBot ℝ)), ih (max ⊥ (x : WithBot ℝ)), hbot, max_assoc]

lemma jsMax_cons (x : ℝ) (xs : List ℝ) :
    jsMax (x :: xs) = max (x : WithBot ℝ) (jsMax xs) := by
  have hbot : max (⊥ : WithBot ℝ) (x : WithBot ℝ) = (x : WithBot ℝ) :=
    max_eq_right bot_le
  simp only [jsMax, List.foldl_cons]
  rw [foldl_max_eq xs (max ⊥ (x : WithBot ℝ)), hbot]
  rfl

lemma le_jsMax {x : ℝ} {l : List ℝ} (hx : x ∈ l) : (x : WithBot ℝ) ≤ jsMax l := by
  induction l with
  | nil => cases hx
  | cons y ys ih =>
    rw [jsMax_cons]
    rcases List.mem_cons.mp hx with h | h
    · exact h ▸ le_max_left _ _
    · exact le_trans (ih h) (le_max_right _ _)

lemma jsMax_mem {l : List ℝ} (hl : l ≠ []) : ∃ m ∈ l, jsMax l = (m : WithBot ℝ) := by
  induction l with
  | nil => exact absurd rfl hl
  | cons x xs ih =>
    rcases eq_or_ne xs [] with h | h
    · subst h
      exact ⟨x, List.mem_cons_self x [], by
        rw [jsMax_cons, jsMax_nil, max_eq_left bot_le]⟩
    · obtain ⟨m, hm, hmax⟩ := ih h
      rw [jsMax_cons, hmax]
      rcases max_choice (x : WithBot ℝ) (m : WithBot ℝ) with h2 | h2
      · exact ⟨x, List.mem_cons_self x xs, h2⟩
      · exact ⟨m, List.mem_cons_of_mem x hm, h2⟩

lemma jsMax_eq_jsMaxR {l : List ℝ} (hl : l ≠ []) :
    jsMax l = ((jsMaxR l : ℝ) : WithBot ℝ) := by
  obtain ⟨m, _, hmax⟩ := jsMax_mem hl
  rw [jsMaxR, hmax, WithBot.unbot'_coe]

lemma jsMaxR_mem {l : List ℝ} (hl : l ≠ []) : jsMaxR l ∈ l := by
  obtain ⟨m, hm, hmax⟩ := jsMax_mem hl
  have : ((jsMaxR l : ℝ) : WithBot ℝ) = (m : WithBot ℝ) := by
    rw [← hmax, jsMax_eq_jsMaxR hl]
  exact (WithBot.coe_inj.mp this) ▸ hm

lemma le_jsMaxR {x : ℝ} {l : List ℝ} (hx : x ∈ l) : x ≤ jsMaxR l := by
  have hl : l ≠ [] := List.ne_nil_of_mem hx
  have := le_jsMax hx
  rw [jsMax_eq_jsMaxR hl] at this
  exact_mod_cast this

lemma jsIndexOf_spec {m : ℝ} : ∀ {l : List ℝ}, m ∈ l →
    ∃ k : ℕ, jsIndexOf l (m : WithBot ℝ) = (k : ℤ) ∧ k < l.length ∧
      l.getD k 0 = m ∧ ∀ j < k, l.getD j 0 ≠ m := by
  intro l
  induction l with
  | nil => intro h; cases h
  | cons x xs ih =>
    intro hx
    by_cases hxm : (x : WithBot ℝ) = (m : WithBot ℝ)
    · refine ⟨0, ?_, Nat.succ_pos _, ?_, by omega⟩
      · simp only [jsIndexOf, if_pos hxm]; rfl
      · simpa using WithBot.coe_inj.mp hxm
    · have hxm' : x ≠ m := fun h => hxm (by exact_mod_cast h)
      have hmem : m ∈ xs := by
        rcases List.mem_cons.mp hx with h | h
        · exact absurd h.symm hxm'
        · exact h
      obtain ⟨k, hk, hlt, hget, hbefore⟩ := ih hmem
      refine ⟨k + 1, ?_, by simpa using Nat.succ_lt_succ hlt, by simpa using hget, ?_⟩
      · have hne : jsIndexOf xs (m : WithBot ℝ) ≠ -1 := by rw [hk]; omega
        simp only [jsIndexOf, if_neg hxm, if_neg hne, hk]
        push_cast
        ring
      · intro j hj
        cases j with
        | zero => simpa using hxm'
        | succ j' => simpa using hbefore j' (by omega)

/-! ### List indexing and fold helpers -/

lemma getD_range_map {α : Type} {n j : ℕ} (f : ℕ → α) (d : α) (h : j < n) :
    ((List.range n).map f).getD j d = f j := by
  rw [List.getD_eq_getElem?_getD, List.getElem?_map, List.getElem?_range h]
  rfl

lemma getD_replicate_zero (n j : ℕ) : (List.replicate n (0 : ℝ)).getD j 0 = 0 := by
  rw [List.getD_eq_getElem?_getD]
  rcases Nat.lt_or_ge j n with h | h
  · simp [List.getElem?_replicate, h]
  · simp [List.getElem?_replicate, Nat.not_lt.mpr h]

lemma foldl_add_map {α : Type} (f : α → ℝ) (l : List α) :
    ∀ c : ℝ, l.foldl (fun s x => s + f x) c = c + (l.map f).sum := by
  induction l with
  | nil => intro c; simp
  | cons x xs ih =>
    intro c
    simp only [List.foldl_cons, List.map_cons, List.sum_cons]
    rw [ih (c + f x)]
    ring

/-! ### The gradient accumulation fold computes the batch sums -/

lemma gradStep_foldl (nf : ℕ) (ws : List ℝ) (b : ℝ) (samples : List (List ℝ × ℝ)) :
    ∀ acc : List ℝ × ℝ,
      ((samples.foldl (gradStep nf ws b) acc).2 =
        acc.2 + (samples.map fun s => sigmoid (dotBias ws b s.1) - s.2).sum) ∧
      ∀ j < nf, (samples.foldl (gradStep nf ws b) acc).1.getD j 0 =
        acc.1.getD j 0 +
          (samples.map fun s => (sigmoid (dotBias ws b s.1) - s.2) * s.1.getD j 0).sum := by
  induction samples with
  | nil => intro acc; simp
  | cons s rest ih =>
    intro acc
    simp only [List.foldl_cons, List.map_cons, List.sum_cons]
    constructor
    · rw [(ih (gradStep nf ws b acc s)).1]
      simp only [gradStep]
      ring
    · intro j hj
      rw [(ih (gradStep nf ws b acc s)).2 j hj]
      simp only [gradStep]
      rw [getD_range_map _ 0 hj]
      ring

/-! ### Claims -/

/-- Claim C3: training a binary classifier runs exactly 1000 full-batch epochs
with no early exit (the trained model is literally the 1000-fold iterate of
the epoch step on the random initial weights and bias 0), and each epoch
updates `w_j := w_j - 0.01 * (mean_i((sigmoid(w·x_i + b) - y_i) * x_i_j) + 0.01 * w_j)`
and `b := b - 0.01 * mean_i(sigmoid(w·x_i + b) - y_i)` — the L2 penalty
touches the weights only, never the bias. -/
theorem claim3_gradient_descent_update :
    (∀ (rand : ℕ → ℝ) (features : List (List ℝ)) (labels : List ℕ) (targetClass : ℕ),
      trainBinaryClassifier rand features labels targetClass =
        { weights := ((epochStep (features.getD 0 []).length features
              (labels.map fun label => if label = targetClass then (1 : ℝ) else 0))^[1000]
              ((List.range (features.getD 0 []).length).map fun k => (rand k - 0.5) * 0.01,
                0)).1,
          bias := ((epochStep (features.getD 0 []).length features
              (labels.map fun label => if label = targetClass then (1 : ℝ) else 0))^[1000]
              ((List.range (features.getD 0 []).length).map fun k => (rand k - 0.5) * 0.01,
                0)).2,
          trained := true }) ∧
    (∀ (nf : ℕ) (features : List (List ℝ)) (ys : List ℝ) (ws : List ℝ) (b : ℝ),
      epochStep nf features ys (ws, b) =
        ((List.range nf).map fun j =>
            ws.getD j 0 -
              0.01 * (((features.zip ys).map fun s =>
                  (sigmoid (dotBias ws b s.1) - s.2) * s.1.getD j 0).sum /
                    (features.length : ℝ) +
                0.01 * ws.getD j 0),
         b - 0.01 * (((features.zip ys).map fun s =>
             sigmoid (dotBias ws b s.1) - s.2).sum / (features.length : ℝ)))) := by
  constructor
  · intro rand features labels targetClass
    rfl
  · intro nf features ys ws b
    have h := gradStep_foldl nf ws b (features.zip ys) (List.replicate nf 0, 0)
    simp only [epochStep, Prod.mk.injEq]
    constructor
    · apply List.map_congr_left
      intro j hj
      rw [h.2 j (List.mem_range.mp hj), getD_replicate_zero]
      simp only [learningRate, lambdaReg]
      ring
    · rw [h.1]
      simp only [learningRate]
      ring

/-- The all-zero prediction input used as the concrete probe. -/
def input0 : PredictionInput :=
  { pm25 := 0, temperature := 0, humidity := 0, windSpeed := 0,
    visibility := 0, pressure := 0 }

/-- Claim C1 (counterexample): on a freshly constructed classifier `predict`
does NOT return prediction index 0 with per-class probabilities 0 and
confidence 0.0 — the model list is empty, so the probability list is `[]`,
`Math.max()` is `-Infinity` and `indexOf` returns `-1`. -/
theorem claim1_counterexample :
    (predict freshMCLR input0).prediction = -1 ∧
    (predict freshMCLR input0).probabilities = [] ∧
    (predict freshMCLR input0).confidence = ⊥ ∧
    (predict freshMCLR input0).prediction ≠ 0 := by
  exact ⟨rfl, rfl, rfl, by decide⟩

/-- Claim C1 (amended): for every input, a freshly constructed classifier (on
which `train` has never been called) returns prediction index `-1`, an empty
probability list, and confidence `-Infinity` (`⊥`): its model list is empty,
so the probability-0 fallback for an untrained model is never even reached. -/
theorem claim1_untrained_predict (x : PredictionInput) :
    predict freshMCLR x =
      { prediction := -1, probabilities := [], confidence := ⊥ } := rfl

/-- Claim C2 (counterexample): `train` on an empty record list throws (the
`TypeError` of `features[0].map` with `features[0]` undefined) instead of
propagating NaN through the min/max computation. -/
theorem claim2_counterexample :
    train freshMCLR (fun _ _ => 0) [] = Except.error JsError.typeError := rfl

/-- Claim C2 (amended): calling `train` on an empty record list always throws a
`TypeError`: `extractFeatures` reads `features[0]`, which is `undefined` for
an empty matrix, and `.map` on `undefined` raises before any min/max (and
hence any NaN) can be computed. -/
theorem claim2_empty_train_throws (s : MCLR) (rand : ℕ → ℕ → ℝ) :
    train s rand [] = Except.error JsError.typeError := rfl

lemma getD_mem_of_lt {l : List ℝ} {j : ℕ} (h : j < l.length) : l.getD j 0 ∈ l := by
  rw [List.getD_eq_getElem?_getD, List.getElem?_eq_getElem h]
  exact List.getElem_mem h

/-- Claim C6: per-class metrics of `evaluate` degrade to 0 (never to an
undefined value) on zero denominators, and are the textbook ratios
otherwise: `tp+fp = 0` gives precision 0, `tp+fn = 0` gives recall 0,
`precision = recall = 0` gives F1 0; otherwise `precision = tp/(tp+fp)`,
`recall = tp/(tp+fn)`, `f1 = 2·p·r/(p+r)`. -/
theorem claim6_degenerate_metrics (cm : List (List ℕ)) (c : ℕ) :
    (tpOf cm c + fpOf cm c = 0 → (classMetrics cm c).1 = 0) ∧
    (tpOf cm c + fnOf cm c = 0 → (classMetrics cm c).2.1 = 0) ∧
    ((classMetrics cm c).1 = 0 ∧ (classMetrics cm c).2.1 = 0 →
      (classMetrics cm c).2.2 = 0) ∧
    (tpOf cm c + fpOf cm c ≠ 0 →
      (classMetrics cm c).1 = (tpOf cm c : ℝ) / ((tpOf cm c : ℝ) + (fpOf cm c : ℝ))) ∧
    (tpOf cm c + fnOf cm c ≠ 0 →
      (classMetrics cm c).2.1 = (tpOf cm c : ℝ) / ((tpOf cm c : ℝ) + (fnOf cm c : ℝ))) ∧
    (¬((classMetrics cm c).1 = 0 ∧ (classMetrics cm c).2.1 = 0) →
      (classMetrics cm c).2.2 =
        2 * ((classMetrics cm c).1 * (classMetrics cm c).2.1) /
          ((classMetrics cm c).1 + (classMetrics cm c).2.1)) := by
  have hP : (classMetrics cm c).1 =
      if tpOf cm c + fpOf cm c = 0 then (0 : ℝ)
      else (tpOf cm c : ℝ) / ((tpOf cm c : ℝ) + (fpOf cm c : ℝ)) := rfl
  have hR : (classMetrics cm c).2.1 =
      if tpOf cm c + fnOf cm c = 0 then (0 : ℝ)
      else (tpOf cm c : ℝ) / ((tpOf cm c : ℝ) + (fnOf cm c : ℝ)) := rfl
  have hF : (classMetrics cm c).2.2 =
      if (classMetrics cm c).1 + (classMetrics cm c).2.1 = 0 then (0 : ℝ)
      else 2 * ((classMetrics cm c).1 * (classMetrics cm c).2.1) /
        ((classMetrics cm c).1 + (classMetrics cm c).2.1) := rfl
  have hp0 : 0 ≤ (classMetrics cm c).1 := by
    rw [hP]
    split
    · exact le_refl 0
    · exact div_nonneg (Nat.cast_nonneg _) (add_nonneg (Nat.cast_nonneg _) (Nat.cast_nonneg _))
  have hr0 : 0 ≤ (classMetrics cm c).2.1 := by
    rw [hR]
    split
    · exact le_refl 0
    · exact div_nonneg (Nat.cast_nonneg _) (add_nonneg (Nat.cast_nonneg _) (Nat.cast_nonneg _))
  refine ⟨?_, ?_, ?_, ?_, ?_, ?_⟩
  · intro h; rw [hP, if_pos h]
  · intro h; rw [hR, if_pos h]
  · rintro ⟨h1, h2⟩
    rw [hF, if_pos (by rw [h1, h2]; ring)]
  · intro h; rw [hP, if_neg h]
  · intro h; rw [hR, if_neg h]
  · intro h
    have hsum : (classMetrics cm c).1 + (classMetrics cm c).2.1 ≠ 0 := fun h0 =>
      h ((add_eq_zero_iff_of_nonneg hp0 hr0).mp h0)
    rw [hF, if_neg hsum]

/-- The all-zero 6×6 confusion matrix, the concrete degenerate probe. -/
def zeroCm : List (List ℕ) := List.replicate 6 (List.replicate 6 0)

/-- Claim C6 (witness): on the all-zero confusion matrix, class 0 has
precision, recall and F1 all equal to 0. -/
theorem claim6_witness :
    (classMetrics zeroCm 0).1 = 0 ∧ (classMetrics zeroCm 0).2.1 = 0 ∧
      (classMetrics zeroCm 0).2.2 = 0 := by
  have h := claim6_degenerate_metrics zeroCm 0
  have h1 := h.1 (by decide)
  have h2 := h.2.1 (by decide)
  exact ⟨h1, h2, h.2.2.1 ⟨h1, h2⟩⟩

/-- The first index at which a nonempty list attains its JS maximum: the spec
behind `probabilities.indexOf(Math.max(...probabilities))`. -/
lemma jsIndexOf_jsMax_spec {l : List ℝ} (hl : l ≠ []) :
    ∃ k : ℕ, jsIndexOf l (jsMax l) = (k : ℤ) ∧ k < l.length ∧
      l.getD k 0 = jsMaxR l ∧ ∀ j < k, l.getD j 0 < jsMaxR l := by
  have hmem := jsMaxR_mem hl
  obtain ⟨k, hk, hlt, hget, hbefore⟩ := jsIndexOf_spec hmem
  rw [← jsMax_eq_jsMaxR hl] at hk
  refine ⟨k, hk, hlt, hget, fun j hj => ?_⟩
  have hjmem : l.getD j 0 ∈ l := getD_mem_of_lt (lt_trans hj hlt)
  exact lt_of_le_of_ne (le_jsMaxR hjmem) (hbefore j hj)

/-- Claim C7: on a classifier with six (trained) models, `predict` returns as
prediction the first — lowest — index attaining the maximum class
probability, and that maximum as confidence; on the explicit tied
probability vector [0.3, 0.3, 0.1, 0.1, 0.1, 0.1] the argmax computation
(`indexOf` of `Math.max`) picks index 0. -/
theorem claim7_argmax_lowest_index (s : MCLR) (x : PredictionInput)
    (hm : s.models.length = 6) (ht : ∀ m ∈ s.models, m.trained = true) :
    (∃ k : ℕ, (predict s x).prediction = (k : ℤ) ∧ k < 6 ∧
      (predict s x).probabilities.getD k 0 = jsMaxR (predict s x).probabilities ∧
      (∀ j < k,
        (predict s x).probabilities.getD j 0 < jsMaxR (predict s x).probabilities) ∧
      (predict s x).confidence =
        ((jsMaxR (predict s x).probabilities : ℝ) : WithBot ℝ)) ∧
    jsIndexOf [(0.3 : ℝ), 0.3, 0.1, 0.1, 0.1, 0.1]
      (jsMax [(0.3 : ℝ), 0.3, 0.1, 0.1, 0.1, 0.1]) = 0 := by
  constructor
  · have hlen : (probs s x).length = 6 := by
      rw [probs, List.length_map, hm]
    have hne : probs s x ≠ [] := by
      intro h
      rw [h] at hlen
      exact absurd hlen (by decide)
    obtain ⟨k, hk, hlt, hget, hbefore⟩ := jsIndexOf_jsMax_spec hne
    exact ⟨k, hk, hlen ▸ hlt, hget, hbefore, jsMax_eq_jsMaxR hne⟩
  · have hmax : jsMax [(0.3 : ℝ), 0.3, 0.1, 0.1, 0.1, 0.1] = ((0.3 : ℝ) : WithBot ℝ) := by
      simp only [jsMax_cons, jsMax_nil, max_eq_left bot_le, ← WithBot.coe_max]
      norm_num
    rw [hmax]
    simp [jsIndexOf]

/-- A concrete all-zero trained binary model. -/
def m0 : LRModel := { weights := [0, 0, 0, 0, 0, 0], bias := 0, trained := true }

/-- A concrete classifier state holding six trained models and in-range
normalization bounds. -/
def s6 : MCLR :=
  { models := List.replicate 6 m0,
    featureMins := [0, 0, 0, 0, 0, 0],
    featureMaxs := [1, 1, 1, 1, 1, 1] }

/-- Claim C7 (witness): the argmax specification applied to the concrete
classifier `s6` and the all-zero input. -/
theorem claim7_witness :
    ∃ k : ℕ, (predict s6 input0).prediction = (k : ℤ) ∧ k < 6 ∧
      (predict s6 input0).probabilities.getD k 0 =
        jsMaxR (predict s6 input0).probabilities ∧
      (∀ j < k,
        (predict s6 input0).probabilities.getD j 0 <
          jsMaxR (predict s6 input0).probabilities) ∧
      (predict s6 input0).confidence =
        ((jsMaxR (predict s6 input0).probabilities : ℝ) : WithBot ℝ) :=
  (claim7_argmax_lowest_index s6 input0 rfl
    (fun m hm => by
      rw [List.eq_of_mem_replicate hm]
      rfl)).1

/-- Claim C8: the ROC curve produced by `evaluate` is a fixed 11-point
synthetic sequence: point `i` has false-positive rate `i/10` and
true-positive rate `min(1, i/10 + 0.1 + jitter)` for a jitter in `[0, 0.1)`,
and the curve is entirely independent of the classifier state and of the
test records. -/
theorem claim8_synthetic_roc (s : MCLR) (jr : ℕ → ℝ) (td : List AirRecord)
    (hjr : ∀ n, 0 ≤ jr n ∧ jr n < 1) :
    (evaluate s jr td).rocCurve.length = 11 ∧
    (∀ i < 11, ∃ jit : ℝ, 0 ≤ jit ∧ jit < 0.1 ∧
      (evaluate s jr td).rocCurve.getD i (0, 0) =
        ((i : ℝ) / 10, min 1 ((i : ℝ) / 10 + 0.1 + jit))) ∧
    (∀ (s₂ : MCLR) (td₂ : List AirRecord),
      (evaluate s₂ jr td₂).rocCurve = (evaluate s jr td).rocCurve) := by
  have hroc : ∀ (s₂ : MCLR) (td₂ : List AirRecord),
      (evaluate s₂ jr td₂).rocCurve = rocCurveOf jr := fun _ _ => rfl
  refine ⟨?_, ?_, ?_⟩
  · rw [hroc]
    simp [rocCurveOf]
  · intro i hi
    refine ⟨jr i * 0.1, mul_nonneg (hjr i).1 (by norm_num), ?_, ?_⟩
    · have h1 := (hjr i).2
      nlinarith
    · rw [hroc, rocCurveOf, getD_range_map _ _ hi]
  · intro s₂ td₂
    rw [hroc, hroc]

/-- Claim C8 (witness): the ROC-curve specification applied to the fresh
classifier, a zero jitter stream, and an empty test list. -/
theorem claim8_witness :
    (evaluate freshMCLR (fun _ => (0 : ℝ)) []).rocCurve.length = 11 :=
  (claim8_synthetic_roc freshMCLR (fun _ => 0) []
    (fun _ => ⟨le_refl 0, zero_lt_one⟩)).1

/-- The average absolute weight of feature `i` across the models — the value
bound to `avgWeight` in `getFeatureImportance`. -/
noncomputable def avgAbs (s : MCLR) (i : ℕ) : ℝ :=
  (s.models.foldl (fun sum model => sum + |model.weights.getD i 0|) 0) /
    (s.models.length : ℝ)

lemma importanceRaw_eq (s : MCLR) :
    importanceRaw s = featureNames.enum.map fun p => (p.2, avgAbs s p.1) := rfl

lemma avgAbs_eq_sum (s : MCLR) (i : ℕ) :
    avgAbs s i =
      ((s.models.map fun model => |model.weights.getD i 0|).sum) /
        (s.models.length : ℝ) := by
  rw [avgAbs, foldl_add_map (fun model => |model.weights.getD i 0|) s.models 0, zero_add]

lemma avgAbs_nonneg (s : MCLR) (i : ℕ) : 0 ≤ avgAbs s i := by
  rw [avgAbs_eq_sum]
  refine div_nonneg (List.sum_nonneg ?_) (Nat.cast_nonneg _)
  intro x hx
  obtain ⟨model, _, rfl⟩ := List.mem_map.mp hx
  exact abs_nonneg _

lemma avgAbs_pos {s : MCLR} {i : ℕ} (hm : s.models.length = 6)
    {model : LRModel} (hmem : model ∈ s.models)
    (hw : model.weights.getD i 0 ≠ 0) : 0 < avgAbs s i := by
  rw [avgAbs_eq_sum, hm]
  refine div_pos (lt_of_lt_of_le (abs_pos.mpr hw) ?_) (by norm_num)
  refine List.single_le_sum ?_ _ (List.mem_map_of_mem _ hmem)
  intro x hx
  obtain ⟨q, _, rfl⟩ := List.mem_map.mp hx
  exact abs_nonneg _

lemma avgAbs_mem_snd (s : MCLR) {i : ℕ} (hi : i < featureNames.length) :
    avgAbs s i ∈ (importanceRaw s).map Prod.snd := by
  have hsome : ((importanceRaw s).map Prod.snd)[i]? = some (avgAbs s i) := by
    rw [importanceRaw_eq, List.map_map, List.getElem?_map, List.getElem?_enum,
      List.getElem?_eq_getElem hi]
    rfl
  exact List.getElem?_mem hsome

/-- Claim C4: for a classifier with six trained models at least one weight of
which is nonzero, `getFeatureImportance` returns 6 scores — the per-feature
average absolute weights divided by the largest such average — so each score
lies in [0, 1], the score 1.0 is attained, the list is sorted descending by
score, and it is a permutation of the normalized average list. -/
theorem claim4_feature_importance (s : MCLR)
    (hm : s.models.length = 6) (ht : ∀ m ∈ s.models, m.trained = true)
    (hw : ∃ i < 6, ∃ model ∈ s.models, model.weights.getD i 0 ≠ 0) :
    (getFeatureImportance s).length = 6 ∧
    (∀ q ∈ getFeatureImportance s, 0 ≤ q.2 ∧ q.2 ≤ 1) ∧
    (∃ q ∈ getFeatureImportance s, q.2 = 1) ∧
    List.Pairwise (fun a b : String × ℝ => b.2 ≤ a.2) (getFeatureImportance s) ∧
    (getFeatureImportance s).Perm
      ((importanceRaw s).map fun item =>
        (item.1, item.2 / jsMaxR ((importanceRaw s).map Prod.snd))) := by
  obtain ⟨i, hi6, model, hmodel, hwz⟩ := hw
  set M : ℝ := jsMaxR ((importanceRaw s).map Prod.snd) with hM
  set normalized : List (String × ℝ) :=
    (importanceRaw s).map fun item => (item.1, item.2 / M) with hnorm
  have hperm : (getFeatureImportance s).Perm normalized := List.mergeSort_perm _ _
  have hlenraw : (importanceRaw s).length = 6 := by
    rw [importanceRaw_eq, List.length_map, List.enum_length]
    rfl
  have hMpos : 0 < M := by
    have hfl : i < featureNames.length := by
      rw [show featureNames.length = 6 from rfl]
      exact hi6
    exact lt_of_lt_of_le (avgAbs_pos hm hmodel hwz) (le_jsMaxR (avgAbs_mem_snd s hfl))
  have hsnd_nonneg : ∀ q ∈ importanceRaw s, 0 ≤ q.2 := by
    intro q hq
    rw [importanceRaw_eq] at hq
    obtain ⟨p, _, rfl⟩ := List.mem_map.mp hq
    exact avgAbs_nonneg s p.1
  have hsnd_le : ∀ q ∈ importanceRaw s, q.2 ≤ M := by
    intro q hq
    exact le_jsMaxR (List.mem_map_of_mem Prod.snd hq)
  refine ⟨?_, ?_, ?_, ?_, hperm⟩
  · rw [hperm.length_eq, hnorm, List.length_map, hlenraw]
  · intro q hq
    obtain ⟨p, hp, rfl⟩ := List.mem_map.mp (hperm.mem_iff.mp hq)
    exact ⟨div_nonneg (hsnd_nonneg p hp) (le_of_lt hMpos),
      (div_le_one hMpos).mpr (hsnd_le p hp)⟩
  · have hne : (importanceRaw s).map Prod.snd ≠ [] := by
      intro h
      have := congrArg List.length h
      rw [List.length_map, hlenraw] at this
      exact absurd this (by decide)
    obtain ⟨p, hp, hpM⟩ := List.mem_map.mp (jsMaxR_mem hne)
    refine ⟨(p.1, p.2 / M), hperm.mem_iff.mpr (List.mem_map_of_mem _ hp), ?_⟩
    simp only
    rw [hpM, div_self (ne_of_gt hMpos)]
  · have hs := @List.sorted_mergeSort (String × ℝ)
      (fun a b : String × ℝ => decide (b.2 ≤ a.2))
      (fun a b c hab hbc => by
        rw [decide_eq_true_eq] at *
        exact le_trans hbc hab)
      (fun a b => by
        rcases le_total a.2 b.2 with h | h
        · simp [h]
        · simp [h])
      normalized
    exact hs.imp (fun h => by rwa [decide_eq_true_eq] at h)

/-- A trained binary model whose first weight is nonzero. -/
def m1 : LRModel := { weights := [1, 0, 0, 0, 0, 0], bias := 0, trained := true }

/-- A concrete classifier state with six trained models and a nonzero
weight. -/
def s6w : MCLR :=
  { models := List.replicate 6 m1,
    featureMins := [0, 0, 0, 0, 0, 0],
    featureMaxs := [1, 1, 1, 1, 1, 1] }

/-- Claim C4 (witness): on the concrete state `s6w` the top importance score
1.0 is attained. -/
theorem claim4_witness : ∃ q ∈ getFeatureImportance s6w, q.2 = 1 :=
  (claim4_feature_importance s6w rfl
    (fun m hmem => by rw [List.eq_of_mem_replicate hmem]; rfl)
    ⟨0, by decide, m1,
      List.mem_replicate.mpr ⟨by decide, rfl⟩, one_ne_zero⟩).2.2.1

lemma epochStep_weights_length (nf : ℕ) (fs : List (List ℝ)) (ys : List ℝ)
    (wb : List ℝ × ℝ) : (epochStep nf fs ys wb).1.length = nf := by
  simp [epochStep]

lemma trainBinaryClassifier_weights_length (rand : ℕ → ℝ) (fs : List (List ℝ))
    (labels : List ℕ) (c : ℕ) :
    (trainBinaryClassifier rand fs labels c).weights.length =
      (fs.getD 0 []).length := by
  simp only [trainBinaryClassifier]
  rw [show epochs = 999 + 1 from rfl, Function.iterate_succ_apply']
  exact epochStep_weights_length _ _ _ _

/-- Claim C9: the normalization bounds a `train` call stores are exactly the
ones `extractFeatures` computed from the training records, every later
`predict` normalizes its input with exactly those stored bounds (never
recomputing them from the prediction input), and `predict` and `evaluate`
leave the classifier state — models and bounds — unchanged. -/
theorem claim9_bounds_frozen_at_train (s : MCLR) (rand : ℕ → ℕ → ℝ)
    (r : AirRecord) (rest : List AirRecord) :
    (∃ er s', extractFeatures (r :: rest) = Except.ok er ∧
      train s rand (r :: rest) = Except.ok s' ∧
      s'.featureMins = er.mins ∧ s'.featureMaxs = er.maxs ∧
      ∀ x : PredictionInput, (predict s' x).probabilities =
        s'.models.map fun model =>
          if model.trained = false then 0
          else sigmoid (dotBias model.weights model.bias
            (normalizeInput er.mins er.maxs x))) ∧
    (∀ (s₂ : MCLR) (x : PredictionInput), predictCall s₂ x = (predict s₂ x, s₂)) ∧
    (∀ (s₂ : MCLR) (jr : ℕ → ℝ) (td : List AirRecord),
      evaluateCall s₂ jr td = (evaluate s₂ jr td, s₂)) :=
  ⟨⟨_, _, rfl, rfl, rfl, rfl, fun _ => rfl⟩, fun _ _ => rfl, fun _ _ _ => rfl⟩

/-- A concrete air-quality record used by the train witnesses. -/
def rec0 : AirRecord :=
  { pm25 := 1, temperature := 2, humidity := 3, windSpeed := 4,
    visibility := 5, pressure := 6, smogLevel := 0 }

/-- Claim C9 (witness): the frozen-bounds specification at a concrete state,
random stream, and one-record training list. -/
theorem claim9_witness :
    ∃ er s', extractFeatures [rec0] = Except.ok er ∧
      train freshMCLR (fun _ _ => 0) [rec0] = Except.ok s' ∧
      s'.featureMins = er.mins ∧ s'.featureMaxs = er.maxs ∧
      ∀ x : PredictionInput, (predict s' x).probabilities =
        s'.models.map fun model =>
          if model.trained = false then 0
          else sigmoid (dotBias model.weights model.bias
            (normalizeInput er.mins er.maxs x)) :=
  (claim9_bounds_frozen_at_train freshMCLR (fun _ _ => 0) rec0 []).1

/-- Claim C10: a completed `train` call on a non-empty record list leaves
exactly 6 binary models, each with `trained = true` and 6 weights; hence the
probability-0 fallback branch inside `predict` is unreachable on a trained
classifier — its probability list is literally the sigmoid of each model's
linear score. -/
theorem claim10_trained_invariant (s : MCLR) (rand : ℕ → ℕ → ℝ)
    (r : AirRecord) (rest : List AirRecord) :
    ∃ s', train s rand (r :: rest) = Except.ok s' ∧
      s'.models.length = 6 ∧
      (∀ model ∈ s'.models, model.trained = true ∧ model.weights.length = 6) ∧
      (∀ x : PredictionInput, probs s' x =
        s'.models.map fun model =>
          sigmoid (dotBias model.weights model.bias
            (normalizeInput s'.featureMins s'.featureMaxs x))) := by
  refine ⟨_, rfl, ?_, ?_, ?_⟩
  · simp [numClasses]
  · intro model hmem
    simp only [List.mem_map, List.mem_range] at hmem
    obtain ⟨c, _, rfl⟩ := hmem
    refine ⟨rfl, ?_⟩
    rw [trainBinaryClassifier_weights_length]
    simp [normalizeFeatures, List.enum_length]
  · intro x
    apply List.map_congr_left
    intro model hmem
    simp only [List.mem_map, List.mem_range] at hmem
    obtain ⟨c, _, rfl⟩ := hmem
    rfl

/-- Claim C10 (witness): the post-training invariant at a concrete state,
random stream, and one-record training list. -/
theorem claim10_witness :
    ∃ s', train freshMCLR (fun _ _ => 0) [rec0] = Except.ok s' ∧
      s'.models.length = 6 ∧
      (∀ model ∈ s'.models, model.trained = true ∧ model.weights.length = 6) ∧
      (∀ x : PredictionInput, probs s' x =
        s'.models.map fun model =>
          sigmoid (dotBias model.weights model.bias
            (normalizeInput s'.featureMins s'.featureMaxs x))) :=
  claim10_trained_invariant freshMCLR (fun _ _ => 0) rec0 []

/-! ### Confusion-matrix accounting for C5 -/

lemma getD_mem {α : Type} {l : List α} {j : ℕ} (d : α) (h : j < l.length) :
    l.getD j d ∈ l := by
  rw [List.getD_eq_getElem?_getD, List.getElem?_eq_getElem h]
  exact List.getElem_mem h

lemma getD_set_self {α : Type} (l : List α) {i : ℕ} (x d : α) (h : i < l.length) :
    (l.set i x).getD i d = x := by
  rw [List.getD_eq_getElem?_getD, List.getElem?_set]
  simp [h]

lemma getD_set_ne {α : Type} (l : List α) {i j : ℕ} (x d : α) (h : i ≠ j) :
    (l.set i x).getD j d = l.getD j d := by
  rw [List.getD_eq_getElem?_getD, List.getElem?_set, if_neg h,
    ← List.getD_eq_getElem?_getD]

/-- Entry `(i, j)` of a row-major list matrix. -/
def cell (m : List (List ℕ)) (i j : ℕ) : ℕ := (m.getD i []).getD j 0

/-- The sum of all 36 entries of a 6×6 matrix. -/
def matrixTotal (m : List (List ℕ)) : ℕ :=
  ∑ i ∈ Finset.range 6, ∑ j ∈ Finset.range 6, cell m i j

/-- The sum of the 6 diagonal entries of a 6×6 matrix. -/
def diagTotal (m : List (List ℕ)) : ℕ :=
  ∑ i ∈ Finset.range 6, cell m i i

/-- The matrix is a 6×6 grid. -/
def matShape (m : List (List ℕ)) : Prop :=
  m.length = 6 ∧ ∀ row ∈ m, row.length = 6

lemma matShape_bumpCell {m : List (List ℕ)} (hs : matShape m) {a : ℕ} (p : ℕ)
    (ha : a < 6) : matShape (bumpCell m a p) := by
  constructor
  · rw [bumpCell, List.length_set]
    exact hs.1
  · intro row hrow
    rcases List.mem_or_eq_of_mem_set hrow with h | h
    · exact hs.2 row h
    · subst h
      rw [List.length_set]
      exact hs.2 _ (getD_mem [] (by rw [hs.1]; exact ha))

lemma cell_bumpCell {m : List (List ℕ)} (hs : matShape m) {a p : ℕ}
    (ha : a < 6) (hp : p < 6) (i j : ℕ) :
    cell (bumpCell m a p) i j =
      if i = a ∧ j = p then cell m i j + 1 else cell m i j := by
  have hla : a < m.length := by rw [hs.1]; exact ha
  have hrow : (m.getD a []).length = 6 := hs.2 _ (getD_mem [] hla)
  have hlp : p < (m.getD a []).length := by rw [hrow]; exact hp
  by_cases hi : i = a
  · subst hi
    rw [bumpCell, cell, getD_set_self _ _ _ hla]
    by_cases hj : j = p
    · subst hj
      rw [getD_set_self _ _ _ hlp, if_pos ⟨rfl, rfl⟩]
      rfl
    · rw [getD_set_ne _ _ _ (fun h => hj h.symm),
        if_neg (fun h => hj h.2)]
      rfl
  · rw [bumpCell, cell, getD_set_ne _ _ _ (fun h => hi h.symm),
      if_neg (fun h => hi h.1)]
    rfl

lemma matrixTotal_bumpCell {m : List (List ℕ)} (hs : matShape m) {a p : ℕ}
    (ha : a < 6) (hp : p < 6) :
    matrixTotal (bumpCell m a p) = matrixTotal m + 1 := by
  unfold matrixTotal
  have h1 :
      (∑ i ∈ Finset.range 6, ∑ j ∈ Finset.range 6, cell (bumpCell m a p) i j) =
      ∑ i ∈ Finset.range 6, ∑ j ∈ Finset.range 6,
        (cell m i j + if i = a ∧ j = p then 1 else 0) := by
    refine Finset.sum_congr rfl fun i _ => Finset.sum_congr rfl fun j _ => ?_
    rw [cell_bumpCell hs ha hp i j]
    by_cases h : i = a ∧ j = p
    · rw [if_pos h, if_pos h]
    · rw [if_neg h, if_neg h, add_zero]
  rw [h1]
  have h2 : ∀ i : ℕ,
      (∑ j ∈ Finset.range 6, (if i = a ∧ j = p then (1 : ℕ) else 0)) =
        if i = a then 1 else 0 := by
    intro i
    by_cases hi : i = a
    · subst hi
      have e : ∀ j : ℕ, (if i = i ∧ j = p then (1 : ℕ) else 0) =
          if j = p then 1 else 0 := fun j => by
        by_cases h : j = p
        · rw [if_pos ⟨rfl, h⟩, if_pos h]
        · rw [if_neg (fun hc => h hc.2), if_neg h]
      rw [Finset.sum_congr rfl fun j _ => e j,
        Finset.sum_ite_eq' (Finset.range 6) p fun _ => (1 : ℕ),
        if_pos (Finset.mem_range.mpr hp), if_pos rfl]
    · rw [if_neg hi]
      refine Finset.sum_eq_zero fun j _ => ?_
      rw [if_neg (fun hc => hi hc.1)]
  calc (∑ i ∈ Finset.range 6, ∑ j ∈ Finset.range 6,
        (cell m i j + if i = a ∧ j = p then 1 else 0))
      = ∑ i ∈ Finset.range 6, ((∑ j ∈ Finset.range 6, cell m i j) +
          ∑ j ∈ Finset.range 6, (if i = a ∧ j = p then (1 : ℕ) else 0)) := by
        refine Finset.sum_congr rfl fun i _ => ?_
        rw [Finset.sum_add_distrib]
    _ = (∑ i ∈ Finset.range 6, ∑ j ∈ Finset.range 6, cell m i j) +
          ∑ i ∈ Finset.range 6, (if i = a then (1 : ℕ) else 0) := by
        rw [← Finset.sum_add_distrib]
        exact Finset.sum_congr rfl fun i _ => by rw [h2 i]
    _ = (∑ i ∈ Finset.range 6, ∑ j ∈ Finset.range 6, cell m i j) + 1 := by
        rw [Finset.sum_ite_eq' (Finset.range 6) a fun _ => (1 : ℕ),
          if_pos (Finset.mem_range.mpr ha)]

lemma diagTotal_bumpCell {m : List (List ℕ)} (hs : matShape m) {a p : ℕ}
    (ha : a < 6) (hp : p < 6) :
    diagTotal (bumpCell m a p) = diagTotal m + if p = a then 1 else 0 := by
  unfold diagTotal
  have h1 : (∑ i ∈ Finset.range 6, cell (bumpCell m a p) i i) =
      ∑ i ∈ Finset.range 6, (cell m i i + if i = a ∧ i = p then 1 else 0) := by
    refine Finset.sum_congr rfl fun i _ => ?_
    rw [cell_bumpCell hs ha hp i i]
    by_cases h : i = a ∧ i = p
    · rw [if_pos h, if_pos h]
    · rw [if_neg h, if_neg h, add_zero]
  rw [h1, Finset.sum_add_distrib]
  congr 1
  by_cases hpa : p = a
  · subst hpa
    rw [if_pos rfl]
    have : ∀ i : ℕ, (if i = p ∧ i = p then (1 : ℕ) else 0) =
        if i = p then 1 else 0 := fun i => by by_cases h : i = p <;> simp [h]
    rw [Finset.sum_congr rfl fun i _ => this i,
      Finset.sum_ite_eq' (Finset.range 6) p fun _ => (1 : ℕ),
      if_pos (Finset.mem_range.mpr hp)]
  · rw [if_neg hpa]
    refine Finset.sum_eq_zero fun i _ => ?_
    rw [if_neg]
    rintro ⟨rfl, rfl⟩
    exact hpa rfl

lemma conf_fold (pairs : List (ℕ × ℤ)) :
    ∀ m0 : List (List ℕ), matShape m0 →
      (∀ q ∈ pairs, q.1 < 6 ∧ 0 ≤ q.2 ∧ q.2 < 6) →
      matShape (pairs.foldl (fun m q => bumpCell m q.1 q.2.toNat) m0) ∧
      matrixTotal (pairs.foldl (fun m q => bumpCell m q.1 q.2.toNat) m0) =
        matrixTotal m0 + pairs.length ∧
      diagTotal (pairs.foldl (fun m q => bumpCell m q.1 q.2.toNat) m0) =
        diagTotal m0 + pairs.countP fun q => q.2 == (q.1 : ℤ) := by
  induction pairs with
  | nil =>
    intro m0 hs _
    refine ⟨hs, ?_, ?_⟩
    · simp
    · simp
  | cons q rest ih =>
    intro m0 hs hq
    have hq1 := hq q (List.mem_cons_self q rest)
    have ha : q.1 < 6 := hq1.1
    have hp : q.2.toNat < 6 := by omega
    obtain ⟨hs', ht', hd'⟩ := ih (bumpCell m0 q.1 q.2.toNat)
      (matShape_bumpCell hs _ ha)
      (fun q' h' => hq q' (List.mem_cons_of_mem q h'))
    refine ⟨by rw [List.foldl_cons]; exact hs', ?_, ?_⟩
    · rw [List.foldl_cons, ht', matrixTotal_bumpCell hs ha hp, List.length_cons]
      omega
    · rw [List.foldl_cons, hd', diagTotal_bumpCell hs ha hp, List.countP_cons]
      have hiff : (q.2.toNat = q.1) ↔ ((q.2 == (q.1 : ℤ)) = true) := by
        rw [beq_iff_eq]
        omega
      by_cases h : q.2.toNat = q.1
      · rw [if_pos h, if_pos (hiff.mp h)]
        omega
      · rw [if_neg h, if_neg (fun hb => h (hiff.mpr hb))]
        omega

lemma predict_prediction_range (s : MCLR) (hm : s.models.length = 6)
    (x : PredictionInput) :
    0 ≤ (predict s x).prediction ∧ (predict s x).prediction < 6 := by
  have hlen : (probs s x).length = 6 := by rw [probs, List.length_map, hm]
  have hne : probs s x ≠ [] := by
    intro h
    rw [h] at hlen
    exact absurd hlen (by decide)
  obtain ⟨k, hk, hlt, _, _⟩ := jsIndexOf_jsMax_spec hne
  have hpred : (predict s x).prediction = (k : ℤ) := hk
  rw [hpred, hlen] at *
  exact ⟨Int.ofNat_nonneg k, by exact_mod_cast hlt⟩

/-- Claim C5: for a classifier with six models and test labels in [0, 5],
`evaluate` builds a 6×6 confusion matrix in which each record increments
exactly one entry (`matrix[actual][predicted]`), so the sum of all entries
equals the number of test records; and the reported accuracy equals the sum
of the diagonal entries divided by the number of test records. -/
theorem claim5_confusion_conservation (s : MCLR) (jr : ℕ → ℝ)
    (td : List AirRecord) (hm : s.models.length = 6)
    (hl : ∀ d ∈ td, d.smogLevel ≤ 5) :
    (evaluate s jr td).confusionMatrix.length = 6 ∧
    (∀ row ∈ (evaluate s jr td).confusionMatrix, row.length = 6) ∧
    matrixTotal (evaluate s jr td).confusionMatrix = td.length ∧
    (evaluate s jr td).accuracy =
      (diagTotal (evaluate s jr td).confusionMatrix : ℝ) / (td.length : ℝ) := by
  set P : List ℤ := td.map fun d => (predict s (toInput d)).prediction with hP
  set A : List ℕ := td.map fun d => d.smogLevel with hA
  have hcm : (evaluate s jr td).confusionMatrix =
      (A.zip P).foldl (fun m q => bumpCell m q.1 q.2.toNat)
        (List.replicate 6 (List.replicate 6 0)) := rfl
  have hacc : (evaluate s jr td).accuracy =
      (((P.zip A).countP fun p => p.1 == (p.2 : ℤ)) : ℝ) / (P.length : ℝ) := rfl
  have hshape0 : matShape (List.replicate 6 (List.replicate 6 0)) := by
    constructor
    · rw [List.length_replicate]
    · intro row hrow
      rw [List.eq_of_mem_replicate hrow, List.length_replicate]
  have hqmem : ∀ q ∈ A.zip P, q.1 < 6 ∧ 0 ≤ q.2 ∧ q.2 < 6 := by
    rintro ⟨qa, qp⟩ hq
    obtain ⟨hqa, hqp⟩ := List.of_mem_zip hq
    rw [hA] at hqa
    rw [hP] at hqp
    obtain ⟨d, hd, rfl⟩ := List.mem_map.mp hqa
    obtain ⟨e, _, rfl⟩ := List.mem_map.mp hqp
    have h1 := hl d hd
    have h2 := predict_prediction_range s hm (toInput e)
    exact ⟨by omega, h2.1, h2.2⟩
  obtain ⟨hsf, htf, hdf⟩ := conf_fold (A.zip P) _ hshape0 hqmem
  have hzip_len : (A.zip P).length = td.length := by
    rw [List.length_zip, hA, hP, List.length_map, List.length_map, min_self]
  have hzero_total : matrixTotal (List.replicate 6 (List.replicate 6 0)) = 0 := by
    decide
  have hzero_diag : diagTotal (List.replicate 6 (List.replicate 6 0)) = 0 := by
    decide
  have hcount : ((P.zip A).countP fun p => p.1 == (p.2 : ℤ)) =
      ((A.zip P).countP fun q => q.2 == (q.1 : ℤ)) := by
    have h := List.countP_map (fun q : ℕ × ℤ => q.2 == (q.1 : ℤ)) Prod.swap (P.zip A)
    rw [List.zip_swap] at h
    rw [h]
    rfl
  refine ⟨?_, ?_, ?_, ?_⟩
  · rw [hcm]
    exact hsf.1
  · rw [hcm]
    exact hsf.2
  · rw [hcm, htf, hzero_total, hzip_len, Nat.zero_add]
  · rw [hacc, hcm, hdf, hzero_diag, Nat.zero_add, hcount, hP, List.length_map]

/-- Claim C5 (witness): conservation instantiated at the concrete trained
state `s6` and a one-record test list. -/
theorem claim5_witness :
    matrixTotal (evaluate s6 (fun _ => (0 : ℝ)) [rec0]).confusionMatrix =
      ([rec0] : List AirRecord).length ∧
    (evaluate s6 (fun _ => (0 : ℝ)) [rec0]).accuracy =
      (diagTotal (evaluate s6 (fun _ => (0 : ℝ)) [rec0]).confusionMatrix : ℝ) /
        ((([rec0] : List AirRecord).length : ℕ) : ℝ) := by
  have h := claim5_confusion_conservation s6 (fun _ => 0) [rec0] rfl
    (fun d hd => by
      rw [List.mem_singleton] at hd
      subst hd
      decide)
  exact ⟨h.2.2.1, h.2.2.2⟩
